import Mathlib

/-!
Verification of the span-context codec and span-linking functions of
`pkg/diagnostics/tracing.go`.

Go strings are modelled as `List Char`; Go byte slices as `List Nat`
(each element intended `< 256`).  A Go panic (index out of range, nil
pointer dereference) is modelled by `Option`: `none` is the panic
branch.  `strings.Split` is `goSplit`, `encoding/hex.DecodeString` is
`hexDecodeBytes` (returning the prefix of bytes decoded before any
failure, as Go 1.10+ does) together with the success flag
`hexDecodeOk`, and `strconv.ParseUint(s, 10, 32)` is `parseUint32`
(0 on a syntax error, `2^32 - 1` saturation on range overflow).
-/

set_option autoImplicit false

namespace Tracing

/-- Value of one hex digit, both cases accepted, as in Go's
`reverseHexTable`; `none` for a non-hex character. -/
def hexVal (c : Char) : Option Nat :=
  if '0' ≤ c ∧ c ≤ '9' then some (c.toNat - 48)
  else if 'a' ≤ c ∧ c ≤ 'f' then some (c.toNat - 87)
  else if 'A' ≤ c ∧ c ≤ 'F' then some (c.toNat - 55)
  else none

/-- Bytes decoded by `hex.DecodeString` before any error: the maximal
leading run of valid hex-digit pairs (Go 1.10+ returns `dst[:n]` even
when it also reports an error). -/
def hexDecodeBytes : List Char → List Nat
  | c1 :: c2 :: rest =>
    match hexVal c1, hexVal c2 with
    | some a, some b => (16 * a + b) :: hexDecodeBytes rest
    | _, _ => []
  | _ => []

/-- Whether `hex.DecodeString` succeeds without error: even length and
every character a hex digit. -/
def hexDecodeOk : List Char → Bool
  | [] => true
  | [_] => false
  | c1 :: c2 :: rest => ((hexVal c1).isSome && (hexVal c2).isSome) && hexDecodeOk rest

/-- Lowercase hex digit for `d < 16`, as produced by
`hex.EncodeToString`. -/
def hexDigit (d : Nat) : Char :=
  if d < 10 then Char.ofNat (48 + d) else Char.ofNat (87 + d)

/-- Two lowercase hex characters of one byte. -/
def byteToHex (b : Nat) : List Char :=
  [hexDigit (b / 16), hexDigit (b % 16)]

/-- `hex.EncodeToString`, used by `SpanID.String` and `TraceID.String`. -/
def hexEncode (bs : List Nat) : List Char :=
  bs.flatMap byteToHex

/-- Decimal digit character. -/
def decDigit (d : Nat) : Char := Char.ofNat (48 + d)

/-- Decimal digits of `n` prepended to `acc` (most significant first);
`fuel` only drives the structural recursion and any `fuel ≥ n`
computes the same list. -/
def natToDecAux : Nat → Nat → List Char → List Char
  | _, 0, acc => acc
  | 0, _ + 1, acc => acc
  | fuel + 1, n + 1, acc =>
    natToDecAux fuel ((n + 1) / 10) (decDigit ((n + 1) % 10) :: acc)

/-- Decimal rendering of a natural number, as `fmt.Sprintf` with the
`d` verb produces. -/
def natToDec (n : Nat) : List Char :=
  if n = 0 then ['0'] else natToDecAux n n []

/-- One step of the base-10 accumulation `n*10 + (c - '0')`. -/
def digitStep (n : Nat) (c : Char) : Nat := n * 10 + (c.toNat - 48)

/-- Numeric value of a digit string. -/
def digitsVal (s : List Char) : Nat :=
  s.foldl digitStep 0

/-- Digit-by-digit loop of `strconv.ParseUint(s, 10, 32)`: a non-digit
aborts with 0 (syntax error), exceeding `2^32 - 1` aborts with
`2^32 - 1` (range error). -/
def parseUint32Core : List Char → Nat → Nat
  | [], n => n
  | c :: rest, n =>
    if c.isDigit then
      if 4294967295 < digitStep n c then 4294967295
      else parseUint32Core rest (digitStep n c)
    else 0

/-- `strconv.ParseUint(s, 10, 32)` as used in the decoder (the error is
discarded, only the returned value matters). -/
def parseUint32 (s : List Char) : Nat :=
  if s = [] then 0 else parseUint32Core s 0

/-- `strings.Split(s, ";")` for the single-character separator: always
returns at least one field. -/
def goSplit : List Char → Char → List (List Char)
  | [], _ => [[]]
  | c :: rest, sep =>
    if c = sep then [] :: goSplit rest sep
    else
      match goSplit rest sep with
      | [] => [[c]]
      | r :: rs => (c :: r) :: rs

/-- Go's `copy(dst[:], src[:])` into a zeroed fixed array of length
`n`: the first `min n src.length` bytes of `src`, the rest zero. -/
def copyInto (n : Nat) (src : List Nat) : List Nat :=
  src.take n ++ List.replicate (n - src.length) 0

/-- `trace.SpanContext`: 8-byte span id, 16-byte trace id, 32-bit
options word (the lengths and bounds are invariants of well-formed
values, stated as hypotheses where needed). -/
structure SpanContext where
  spanID : List Nat
  traceID : List Nat
  traceOptions : Nat
  deriving DecidableEq

/-- `SerializeSpanContext`: `fmt.Sprintf` of `SpanID.String()`,
`TraceID.String()` and the decimal `TraceOptions`, joined by `;`. -/
def SerializeSpanContext (sc : SpanContext) : List Char :=
  hexEncode sc.spanID ++ (';' :: (hexEncode sc.traceID ++ (';' :: natToDec (sc.traceOptions % 4294967296))))

/-- `DeserializeSpanContext`: split on `;`, best-effort decode of the
first three fields; accessing a missing field is an index-out-of-range
panic, modelled as `none`. -/
def DeserializeSpanContext (s : List Char) : Option SpanContext :=
  if 3 ≤ (goSplit s ';').length then
    some { spanID := copyInto 8 (hexDecodeBytes ((goSplit s ';').getD 0 [])),
           traceID := copyInto 16 (hexDecodeBytes ((goSplit s ';').getD 1 [])),
           traceOptions := parseUint32 ((goSplit s ';').getD 2 []) }
  else none

/-- `DeserializeSpanContextPointer`: `some none` is the nil pointer
returned for the empty string, `none` is a panic inside the decode. -/
def DeserializeSpanContextPointer (s : List Char) : Option (Option SpanContext) :=
  if s = [] then some none
  else (DeserializeSpanContext s).map some

/-- `time.Time` is opaque here: only its `String()` rendering is ever
used, so the model stores that rendering. -/
structure Time where
  rendered : String
  deriving DecidableEq

/-- An opaque Go `interface\x7b\x7d` value as far as this module observes
it: `fmt.Sprintf` with the `v` verb renders a nil interface as the
string `<nil>` and any other value as some string. -/
inductive GoValue where
  | vnil : GoValue
  | vstr : String → GoValue
  deriving DecidableEq

/-- Go's generic value-to-string conversion (the `v` verb) on a
`GoValue`. -/
def GoValue.format : GoValue → String
  | .vnil => "<nil>"
  | .vstr s => s

/-- `KeyValState` from the source. -/
structure KeyValState where
  Key : String
  Value : GoValue
  deriving DecidableEq

/-- `Event` from the source. -/
structure Event where
  EventName : String
  To : List String
  Concurrency : String
  CreatedAt : Time
  State : List KeyValState
  Data : GoValue
  deriving DecidableEq

/-- A `trace.StringAttribute`. -/
structure Attribute where
  key : String
  value : String
  deriving DecidableEq

/-- One call made on a span: `span.Annotate(attrs, msg)` or
`span.AddAttributes(attrs...)`. -/
inductive SpanCall where
  | annotate : List Attribute → String → SpanCall
  | addAttributes : List Attribute → SpanCall
  deriving DecidableEq

/-- The attribute list carried by a span call. -/
def SpanCall.attrList : SpanCall → List Attribute
  | .annotate attrs _ => attrs
  | .addAttributes attrs => attrs

/-- The four attributes built for one event inside
`AddEventAnnotations`. -/
def eventAttrs (e : Event) : List Attribute :=
  [⟨"eventName", e.EventName⟩,
   ⟨"createdAt", e.CreatedAt.rendered⟩,
   ⟨"concurrency", e.Concurrency⟩,
   ⟨"to", String.intercalate "," e.To⟩]

/-- The two span calls one loop iteration of `AddEventAnnotations`
makes: `Annotate` with the base attributes, then `AddAttributes` with
the base attributes plus, when `includeEventBody`, the rendered
`data`. -/
def annotateEvent (e : Event) (includeEventBody : Bool) : List SpanCall :=
  [SpanCall.annotate (eventAttrs e) "message",
   SpanCall.addAttributes (eventAttrs e ++
     if includeEventBody then [⟨"data", e.Data.format⟩] else [])]

/-- `AddEventAnnotations`: the events argument is a pointer to a
slice; a nil pointer (`none`) is dereferenced by the range loop and
panics. -/
def AddEventAnnotations (events : Option (List Event)) (includeEventBody : Bool) :
    Option (List SpanCall) :=
  match events with
  | none => none
  | some es => some (es.flatMap (fun e => annotateEvent e includeEventBody))

/-- A span as this module observes it: its operation name, the remote
parent it was started with (if any), the identity the runtime assigned
to it, and the calls made on it. -/
structure Span where
  name : String
  remoteParent : Option SpanContext
  identity : SpanContext
  calls : List SpanCall
  deriving DecidableEq

/-- `trace.StartSpan`: a root span, its identity assigned by the
runtime (passed in as `fresh`). -/
def startSpan (fresh : SpanContext) (operation : String) : Span :=
  ⟨operation, none, fresh, []⟩

/-- `trace.StartSpanWithRemoteParent`: a span recorded as a
remote-parented child of `parent`. -/
def startSpanWithRemoteParent (fresh : SpanContext) (operation : String)
    (parent : SpanContext) : Span :=
  ⟨operation, some parent, fresh, []⟩

/-- The four fixed attributes of `TraceSpanFromCorrelationId`. -/
def actionCallAttrs (actionMethod targetID fro verbMethod : String) : List Attribute :=
  [⟨"actionMethod", actionMethod⟩,
   ⟨"targetID", targetID⟩,
   ⟨"from", fro⟩,
   ⟨"verbMethod", verbMethod⟩]

/-- `TraceSpanFromCorrelationId`: a non-empty correlation id is
decoded (possibly panicking) and used as remote parent, an empty one
starts a root span; then the four fixed attributes are annotated
(tagged `actionCall`) and added. -/
def TraceSpanFromCorrelationId (fresh : SpanContext) (corID : List Char)
    (operation actionMethod targetID fro verbMethod : String) : Option Span :=
  let span? : Option Span :=
    if corID ≠ [] then
      (DeserializeSpanContext corID).map
        (fun sc => startSpanWithRemoteParent fresh operation sc)
    else some (startSpan fresh operation)
  span?.map (fun sp =>
    { sp with calls := sp.calls ++
        [SpanCall.annotate (actionCallAttrs actionMethod targetID fro verbMethod) "actionCall",
         SpanCall.addAttributes (actionCallAttrs actionMethod targetID fro verbMethod)] })

/-- `TraceSpanFromContext`: child span in the current context; when
`includeEvent` is set the events are annotated (panicking on a nil
events pointer); the returned snapshot is a copy of the span's own
identity. -/
def TraceSpanFromContext (fresh : SpanContext) (events : Option (List Event))
    (operation : String) (includeEvent includeEventBody : Bool) :
    Option (Span × SpanContext) :=
  let sp := startSpan fresh operation
  if includeEvent then
    match AddEventAnnotations events includeEventBody with
    | none => none
    | some calls => some ({ sp with calls := sp.calls ++ calls }, sp.identity)
  else some (sp, sp.identity)

/-- The inbound routing context: only the peeked `correlation-id`
header is observed. -/
structure RoutingContext where
  correlationHeader : List Char

/-- `TraceSpanFromRoutingContext`: nil context starts a root span,
otherwise a non-empty `correlation-id` header is decoded (possibly
panicking) for remote parenting; events are annotated when requested
(panicking on a nil events pointer); a copy of the span's identity is
returned. -/
def TraceSpanFromRoutingContext (fresh : SpanContext) (c : Option RoutingContext)
    (events : Option (List Event)) (operation : String)
    (includeEvent includeEventBody : Bool) : Option (Span × Option SpanContext) :=
  let span? : Option Span :=
    match c with
    | none => some (startSpan fresh operation)
    | some rc =>
      if rc.correlationHeader ≠ [] then
        (DeserializeSpanContext rc.correlationHeader).map
          (fun sc => startSpanWithRemoteParent fresh operation sc)
      else some (startSpan fresh operation)
  match span? with
  | none => none
  | some sp =>
    let after? : Option Span :=
      if includeEvent then
        (AddEventAnnotations events includeEventBody).map
          (fun calls => { sp with calls := sp.calls ++ calls })
      else some sp
    after?.map (fun sp2 => (sp2, some sp2.identity))

/-! ### Helper lemmas about the codec primitives -/

lemma goSplit_ne_nil (s : List Char) (sep : Char) : goSplit s sep ≠ [] := by
  induction s with
  | nil => simp [goSplit]
  | cons c rest ih =>
    simp only [goSplit]
    split
    · simp
    · split
      · simp
      · simp

lemma goSplit_no_sep (s : List Char) (sep : Char) (h : sep ∉ s) : goSplit s sep = [s] := by
  induction s with
  | nil => rfl
  | cons c rest ih =>
    have hc : ¬ c = sep := by intro he; exact h (by simp [he])
    have hrest : sep ∉ rest := fun hr => h (List.mem_cons_of_mem _ hr)
    simp only [goSplit, if_neg hc]
    rw [ih hrest]

lemma goSplit_append_sep (a b : List Char) (sep : Char) (h : sep ∉ a) :
    goSplit (a ++ sep :: b) sep = a :: goSplit b sep := by
  induction a with
  | nil => simp [goSplit]
  | cons c a ih =>
    have hc : ¬ c = sep := by intro he; exact h (by simp [he])
    have ha : sep ∉ a := fun hm => h (List.mem_cons_of_mem _ hm)
    simp only [List.cons_append, goSplit, if_neg hc, List.append_eq]
    rw [ih ha]

lemma hexVal_hexDigit (d : Nat) (h : d < 16) : hexVal (hexDigit d) = some d := by
  interval_cases d <;> decide

lemma hexDigit_ne_semi (d : Nat) (h : d < 16) : hexDigit d ≠ ';' := by
  interval_cases d <;> decide

lemma semi_not_mem_hexEncode (bs : List Nat) (hb : ∀ b ∈ bs, b < 256) :
    ';' ∉ hexEncode bs := by
  induction bs with
  | nil => simp [hexEncode]
  | cons b bs ih =>
    have hb0 : b < 256 := hb b (by simp)
    intro hmem
    unfold hexEncode at hmem
    rcases List.mem_flatMap.mp hmem with ⟨x, hxmem, hcx⟩
    rcases List.mem_cons.mp hxmem with hx | hx
    · rw [hx] at hcx
      simp [byteToHex] at hcx
      rcases hcx with hcx | hcx
      · exact hexDigit_ne_semi (b / 16) (by omega) hcx.symm
      · exact hexDigit_ne_semi (b % 16) (by omega) hcx.symm
    · exact ih (fun y hy => hb y (List.mem_cons_of_mem _ hy))
        (List.mem_flatMap.mpr ⟨x, hx, hcx⟩)

lemma hexDecodeBytes_encode (bs : List Nat) (hb : ∀ b ∈ bs, b < 256) :
    hexDecodeBytes (hexEncode bs) = bs := by
  induction bs with
  | nil => simp [hexEncode, hexDecodeBytes]
  | cons b bs ih =>
    have hb0 : b < 256 := hb b (by simp)
    have e1 : hexVal (hexDigit (b / 16)) = some (b / 16) := hexVal_hexDigit _ (by omega)
    have e2 : hexVal (hexDigit (b % 16)) = some (b % 16) := hexVal_hexDigit _ (by omega)
    simp only [hexEncode, List.flatMap_cons, byteToHex, List.cons_append, List.nil_append]
    simp only [hexDecodeBytes, e1, e2]
    have hbv : 16 * (b / 16) + b % 16 = b := by omega
    rw [hbv]
    have ihr := ih (fun x hx => hb x (List.mem_cons_of_mem _ hx))
    simp only [hexEncode] at ihr
    rw [ihr]

lemma decDigit_toNat (d : Nat) (h : d < 10) : (decDigit d).toNat = 48 + d := by
  interval_cases d <;> decide

lemma decDigit_isDigit (d : Nat) (h : d < 10) : (decDigit d).isDigit = true := by
  interval_cases d <;> decide

lemma mem_natToDecAux (fuel : Nat) :
    ∀ (n : Nat) (acc : List Char) (c : Char), c ∈ natToDecAux fuel n acc →
      c ∈ acc ∨ ∃ d, d < 10 ∧ c = decDigit d := by
  induction fuel with
  | zero =>
    intro n acc c hc
    cases n <;> simp only [natToDecAux] at hc <;> exact Or.inl hc
  | succ fuel ih =>
    intro n acc c hc
    cases n with
    | zero => simp only [natToDecAux] at hc; exact Or.inl hc
    | succ m =>
      simp only [natToDecAux] at hc
      rcases ih _ _ _ hc with h | h
      · rcases List.mem_cons.mp h with h | h
        · exact Or.inr ⟨(m + 1) % 10, by omega, h⟩
        · exact Or.inl h
      · exact Or.inr h

lemma natToDec_isDigit (n : Nat) : ∀ c ∈ natToDec n, c.isDigit = true := by
  intro c hc
  unfold natToDec at hc
  split at hc
  · simp only [List.mem_singleton] at hc
    subst hc; decide
  · rcases mem_natToDecAux _ _ _ _ hc with h | ⟨d, hd, rfl⟩
    · simp at h
    · exact decDigit_isDigit _ hd

lemma natToDec_no_semi (n : Nat) : ';' ∉ natToDec n := by
  intro hm
  exact absurd (natToDec_isDigit n ';' hm) (by decide)

lemma natToDecAux_length (fuel : Nat) :
    ∀ (n : Nat) (acc : List Char), acc.length ≤ (natToDecAux fuel n acc).length := by
  induction fuel with
  | zero => intro n acc; cases n <;> simp [natToDecAux]
  | succ fuel ih =>
    intro n acc
    cases n with
    | zero => simp [natToDecAux]
    | succ m =>
      simp only [natToDecAux]
      calc acc.length ≤ (decDigit ((m + 1) % 10) :: acc).length := by simp
      _ ≤ _ := ih _ _

lemma natToDec_ne_nil (n : Nat) : natToDec n ≠ [] := by
  unfold natToDec
  split
  · simp
  · rename_i hn
    match n, hn with
    | m + 1, _ =>
      simp only [natToDecAux]
      intro he
      have := natToDecAux_length m ((m + 1) / 10) [decDigit ((m + 1) % 10)]
      rw [he] at this
      simp at this

/-- Value accumulated by folding the decimal digits of `n` on top of
`init` (helper for reasoning about `natToDec`). -/
def pushDec (init : Nat) : Nat → Nat
  | 0 => init
  | m + 1 => pushDec init ((m + 1) / 10) * 10 + (m + 1) % 10
decreasing_by omega

lemma pushDec_zero (n : Nat) : pushDec 0 n = n := by
  induction n using Nat.strong_induction_on with
  | _ n ih =>
    match n with
    | 0 => simp [pushDec]
    | m + 1 =>
      rw [pushDec]
      rw [ih ((m + 1) / 10) (by omega)]
      omega

lemma foldl_natToDecAux (fuel : Nat) :
    ∀ (n : Nat), n ≤ fuel → ∀ (init : Nat) (acc : List Char),
      List.foldl digitStep init (natToDecAux fuel n acc) =
        List.foldl digitStep (pushDec init n) acc := by
  induction fuel with
  | zero =>
    intro n hn init acc
    have : n = 0 := by omega
    subst this
    simp [natToDecAux, pushDec]
  | succ fuel ih =>
    intro n hn init acc
    cases n with
    | zero => simp [natToDecAux, pushDec]
    | succ m =>
      simp only [natToDecAux]
      rw [ih ((m + 1) / 10) (by omega) init (decDigit ((m + 1) % 10) :: acc)]
      simp only [List.foldl_cons]
      have hd : (decDigit ((m + 1) % 10)).toNat = 48 + (m + 1) % 10 :=
        decDigit_toNat _ (by omega)
      have hstep : digitStep (pushDec init ((m + 1) / 10)) (decDigit ((m + 1) % 10)) =
          pushDec init (m + 1) := by
        unfold digitStep
        rw [hd, pushDec]
        omega
      rw [hstep]

lemma digitsVal_natToDec (n : Nat) : digitsVal (natToDec n) = n := by
  unfold natToDec
  split
  · rename_i h; subst h; decide
  · unfold digitsVal
    rw [foldl_natToDecAux n n (le_refl n) 0 []]
    simp only [List.foldl_nil]
    exact pushDec_zero n

lemma le_foldl_digitStep (s : List Char) : ∀ n : Nat, n ≤ List.foldl digitStep n s := by
  induction s with
  | nil => intro n; simp
  | cons c rest ih =>
    intro n
    simp only [List.foldl_cons]
    calc n ≤ digitStep n c := by unfold digitStep; omega
    _ ≤ _ := ih _

lemma parseUint32Core_eq_foldl (s : List Char) :
    ∀ n : Nat, s.all Char.isDigit = true → List.foldl digitStep n s ≤ 4294967295 →
      parseUint32Core s n = List.foldl digitStep n s := by
  induction s with
  | nil => intro n _ _; simp [parseUint32Core]
  | cons c rest ih =>
    intro n hall hle
    simp only [List.all_cons, Bool.and_eq_true] at hall
    obtain ⟨hc, hrest⟩ := hall
    rw [List.foldl_cons] at hle
    have hne : ¬ 4294967295 < digitStep n c :=
      not_lt.mpr (le_trans (le_foldl_digitStep rest (digitStep n c)) hle)
    simp only [parseUint32Core, hc, if_true, if_neg hne]
    rw [List.foldl_cons]
    exact ih (digitStep n c) hrest hle

lemma parseUint32Core_sat (s : List Char) :
    ∀ n : Nat, s.all Char.isDigit = true → n ≤ 4294967295 →
      4294967295 < List.foldl digitStep n s → parseUint32Core s n = 4294967295 := by
  induction s with
  | nil =>
    intro n _ hn hlt
    simp only [List.foldl_nil] at hlt
    omega
  | cons c rest ih =>
    intro n hall hn hlt
    simp only [List.all_cons, Bool.and_eq_true] at hall
    obtain ⟨hc, hrest⟩ := hall
    rw [List.foldl_cons] at hlt
    simp only [parseUint32Core, hc, if_true]
    by_cases hbig : 4294967295 < digitStep n c
    · rw [if_pos hbig]
    · rw [if_neg hbig]
      exact ih (digitStep n c) hrest (by omega) hlt

lemma parseUint32_saturates (s : List Char) (hne : s ≠ [])
    (hall : s.all Char.isDigit = true) (hover : 4294967295 < digitsVal s) :
    parseUint32 s = 4294967295 := by
  unfold parseUint32
  rw [if_neg hne]
  exact parseUint32Core_sat s 0 hall (by omega) hover

lemma parseUint32_natToDec (n : Nat) (h : n < 4294967296) :
    parseUint32 (natToDec n) = n := by
  unfold parseUint32
  rw [if_neg (natToDec_ne_nil n)]
  have hall : (natToDec n).all Char.isDigit = true :=
    List.all_eq_true.mpr (fun c hc => natToDec_isDigit n c hc)
  have hfold : List.foldl digitStep 0 (natToDec n) = n := digitsVal_natToDec n
  rw [parseUint32Core_eq_foldl _ 0 hall (by rw [hfold]; omega), hfold]

lemma copyInto_exact (src : List Nat) : copyInto src.length src = src := by
  simp [copyInto, List.take_length]

lemma copyInto_trunc (n : Nat) (src : List Nat) (h : n ≤ src.length) :
    copyInto n src = src.take n := by
  unfold copyInto
  have : n - src.length = 0 := by omega
  rw [this]
  simp

lemma hexDecodeBytes_length (p : List Char) (hok : hexDecodeOk p = true) :
    2 * (hexDecodeBytes p).length = p.length := by
  have main : ∀ (k : Nat) (q : List Char), q.length ≤ k → hexDecodeOk q = true →
      2 * (hexDecodeBytes q).length = q.length := by
    intro k
    induction k with
    | zero =>
      intro q hq _
      have hq0 : q = [] := List.length_eq_zero.mp (by omega)
      subst hq0
      simp [hexDecodeBytes]
    | succ k ih =>
      intro q hq hokq
      cases q with
      | nil => simp [hexDecodeBytes]
      | cons c1 q1 =>
        cases q1 with
        | nil => simp [hexDecodeOk] at hokq
        | cons c2 rest =>
          simp only [hexDecodeOk, Bool.and_eq_true] at hokq
          obtain ⟨⟨h1, h2⟩, h3⟩ := hokq
          obtain ⟨a, ha⟩ := Option.isSome_iff_exists.mp h1
          obtain ⟨b, hb⟩ := Option.isSome_iff_exists.mp h2
          simp only [hexDecodeBytes, ha, hb]
          have hlen : rest.length ≤ k := by
            simp only [List.length_cons] at hq
            omega
          have hr := ih rest hlen h3
          simp only [List.length_cons]
          omega
  exact main p.length p (le_refl _) hok

lemma deserialize_parts (s a b c : List Char) (rest : List (List Char))
    (h : goSplit s ';' = a :: b :: c :: rest) :
    DeserializeSpanContext s =
      some ⟨copyInto 8 (hexDecodeBytes a), copyInto 16 (hexDecodeBytes b), parseUint32 c⟩ := by
  unfold DeserializeSpanContext
  rw [h]
  rw [if_pos (by simp only [List.length_cons]; omega)]
  simp [List.getD]

lemma deserialize_serialize (sc : SpanContext) (h1 : sc.spanID.length = 8)
    (h2 : ∀ b ∈ sc.spanID, b < 256) (h3 : sc.traceID.length = 16)
    (h4 : ∀ b ∈ sc.traceID, b < 256) (h5 : sc.traceOptions < 4294967296) :
    DeserializeSpanContext (SerializeSpanContext sc) = some sc := by
  have hmod : sc.traceOptions % 4294967296 = sc.traceOptions := Nat.mod_eq_of_lt h5
  have hsplit : goSplit (SerializeSpanContext sc) ';' =
      hexEncode sc.spanID :: hexEncode sc.traceID :: natToDec sc.traceOptions :: [] := by
    unfold SerializeSpanContext
    rw [hmod]
    rw [goSplit_append_sep _ _ _ (semi_not_mem_hexEncode _ h2)]
    rw [goSplit_append_sep _ _ _ (semi_not_mem_hexEncode _ h4)]
    rw [goSplit_no_sep _ _ (natToDec_no_semi _)]
  rw [deserialize_parts _ _ _ _ _ hsplit]
  rw [hexDecodeBytes_encode _ h2, hexDecodeBytes_encode _ h4]
  rw [show (8 : Nat) = sc.spanID.length from h1.symm, copyInto_exact]
  rw [show (16 : Nat) = sc.traceID.length from h3.symm, copyInto_exact]
  rw [parseUint32_natToDec _ h5]

/-! ### Helper lemmas about the annotation loop -/

lemma flatMap_annotate_length (es : List Event) (b : Bool) :
    (es.flatMap (fun e => annotateEvent e b)).length = 2 * es.length := by
  induction es with
  | nil => simp
  | cons e es ih =>
    rw [List.flatMap_cons, List.length_append, ih]
    have h2 : (annotateEvent e b).length = 2 := rfl
    rw [h2]
    simp only [List.length_cons]
    omega

lemma flatMap_annotate_get (es : List Event) (b : Bool) :
    ∀ i : Nat,
      (es.flatMap (fun e => annotateEvent e b))[2 * i]? =
        (es[i]?).map (fun e => SpanCall.annotate (eventAttrs e) "message") ∧
      (es.flatMap (fun e => annotateEvent e b))[2 * i + 1]? =
        (es[i]?).map (fun e => SpanCall.addAttributes (eventAttrs e ++
          if b then [⟨"data", e.Data.format⟩] else [])) := by
  induction es with
  | nil => intro i; simp
  | cons e es ih =>
    intro i
    cases i with
    | zero => simp [annotateEvent]
    | succ i =>
      have e1 : 2 * (i + 1) = 2 * i + 1 + 1 := by omega
      rw [e1]
      simp only [List.flatMap_cons, annotateEvent, List.cons_append, List.nil_append,
        List.getElem?_cons_succ]
      exact ih i

lemma addEventAnnotations_some (es : List Event) (b : Bool) (calls : List SpanCall)
    (h : AddEventAnnotations (some es) b = some calls) :
    calls = es.flatMap (fun e => annotateEvent e b) := by
  simp only [AddEventAnnotations] at h
  exact (Option.some.inj h).symm

lemma mem_flatMap_annotate (es : List Event) (b : Bool) (c : SpanCall)
    (hc : c ∈ es.flatMap (fun e => annotateEvent e b)) :
    ∃ e, e ∈ es ∧ (c = SpanCall.annotate (eventAttrs e) "message" ∨
      c = SpanCall.addAttributes (eventAttrs e ++
        if b then [⟨"data", e.Data.format⟩] else [])) := by
  rcases List.mem_flatMap.mp hc with ⟨e, he, hce⟩
  refine ⟨e, he, ?_⟩
  simpa [annotateEvent] using hce

lemma eventAttrs_key_ne_data (e : Event) : ∀ a ∈ eventAttrs e, a.key ≠ "data" := by
  intro a ha
  simp only [eventAttrs, List.mem_cons, List.mem_singleton, List.not_mem_nil] at ha
  rcases ha with rfl | rfl | rfl | rfl | h
  · show ("eventName" : String) ≠ "data"
    decide
  · show ("createdAt" : String) ≠ "data"
    decide
  · show ("concurrency" : String) ≠ "data"
    decide
  · show ("to" : String) ≠ "data"
    decide
  · simp at h

/-! ### The claims -/

/-- C1: for every `SpanContext` with a full-width 8-byte span id, a
full-width 16-byte trace id and a flags value below `2^32`, decoding
the encoding restores it field for field. -/
theorem serialize_deserialize_roundTrip (sc : SpanContext) (h1 : sc.spanID.length = 8)
    (h2 : ∀ b ∈ sc.spanID, b < 256) (h3 : sc.traceID.length = 16)
    (h4 : ∀ b ∈ sc.traceID, b < 256) (h5 : sc.traceOptions < 4294967296) :
    DeserializeSpanContext (SerializeSpanContext sc) = some sc :=
  deserialize_serialize sc h1 h2 h3 h4 h5

/-- Witness for C1 at a concrete full-width span context. -/
theorem serialize_deserialize_roundTrip_witness :
    DeserializeSpanContext (SerializeSpanContext
        ⟨[0, 1, 2, 3, 4, 5, 6, 7],
         [255, 254, 253, 252, 251, 250, 249, 248, 247, 246, 245, 244, 243, 242, 241, 240],
         4294967295⟩) =
      some ⟨[0, 1, 2, 3, 4, 5, 6, 7],
        [255, 254, 253, 252, 251, 250, 249, 248, 247, 246, 245, 244, 243, 242, 241, 240],
        4294967295⟩ :=
  serialize_deserialize_roundTrip
    ⟨[0, 1, 2, 3, 4, 5, 6, 7],
     [255, 254, 253, 252, 251, 250, 249, 248, 247, 246, 245, 244, 243, 242, 241, 240],
     4294967295⟩
    (by decide) (by decide) (by decide) (by decide) (by decide)

/-- C2: a token splitting into fewer than 3 fields reaches the
out-of-range access: the decode is not total there and the panic
branch (`none`) of the embedding is taken. -/
theorem deserialize_few_fields_panics (s : List Char)
    (h : (goSplit s ';').length < 3) : DeserializeSpanContext s = none := by
  unfold DeserializeSpanContext
  rw [if_neg (by omega)]

/-- Witness for C2 on the 2-field token `abc;def`. -/
theorem deserialize_few_fields_panics_witness :
    DeserializeSpanContext ("abc;def".data) = none :=
  deserialize_few_fields_panics ("abc;def".data) (by decide)

/-- C3 counterexample: on `ffzz;...;1` the hex decode of field 0 fails,
yet the span id is not left at its zero value — it holds the partially
decoded prefix byte `0xff`. -/
theorem deserialize_silent_zero_cex :
    hexDecodeOk ("ffzz".data) = false ∧
    DeserializeSpanContext ("ffzz;00112233445566778899aabbccddeeff;1".data) =
      some ⟨[255, 0, 0, 0, 0, 0, 0, 0],
        [0, 17, 34, 51, 68, 85, 102, 119, 136, 153, 170, 187, 204, 221, 238, 255], 1⟩ ∧
    ([255, 0, 0, 0, 0, 0, 0, 0] : List Nat) ≠ List.replicate 8 0 :=
  ⟨by decide, by decide, by decide⟩

/-- C3 (amended): for every token with at least 3 fields the decode
always succeeds without reporting anything; a failing hex field leaves
the zero-padded prefix of bytes decoded before the failure, and the
flags field holds the width-bounded parse result of the third field. -/
theorem deserialize_best_effort (p0 p1 tail : List Char)
    (h0 : ';' ∉ p0) (h1 : ';' ∉ p1) :
    ∃ sc, DeserializeSpanContext (p0 ++ (';' :: (p1 ++ (';' :: tail)))) = some sc ∧
      sc.spanID = (hexDecodeBytes p0).take 8 ++
        List.replicate (8 - (hexDecodeBytes p0).length) 0 ∧
      sc.traceID = (hexDecodeBytes p1).take 16 ++
        List.replicate (16 - (hexDecodeBytes p1).length) 0 ∧
      sc.traceOptions = parseUint32 (goSplit tail ';').headI := by
  obtain ⟨c, rest, hcr⟩ := List.exists_cons_of_ne_nil (goSplit_ne_nil tail ';')
  have hsplit : goSplit (p0 ++ (';' :: (p1 ++ (';' :: tail)))) ';' = p0 :: p1 :: c :: rest := by
    rw [goSplit_append_sep _ _ _ h0, goSplit_append_sep _ _ _ h1, hcr]
  refine ⟨_, deserialize_parts _ _ _ _ _ hsplit, rfl, rfl, ?_⟩
  rw [hcr]
  rfl

/-- Witness for C3 (amended) at the concrete token `ffzz;00;1`. -/
theorem deserialize_best_effort_witness :
    ∃ sc, DeserializeSpanContext
        ("ffzz".data ++ (';' :: ("00".data ++ (';' :: "1".data)))) = some sc ∧
      sc.spanID = (hexDecodeBytes ("ffzz".data)).take 8 ++
        List.replicate (8 - (hexDecodeBytes ("ffzz".data)).length) 0 ∧
      sc.traceID = (hexDecodeBytes ("00".data)).take 16 ++
        List.replicate (16 - (hexDecodeBytes ("00".data)).length) 0 ∧
      sc.traceOptions = parseUint32 (goSplit ("1".data) ';').headI :=
  deserialize_best_effort ("ffzz".data) ("00".data) ("1".data) (by decide) (by decide)

/-- C4 counterexample: on the non-empty malformed token `abc` the
function does not return a span at all — the decode panics. -/
theorem traceSpan_malformed_cex :
    TraceSpanFromCorrelationId ⟨List.replicate 8 0, List.replicate 16 0, 0⟩
      ("abc".data) "op" "am" "tid" "src" "GET" = none := by
  decide

/-- C4 (amended): a well-formed token yields a span remote-parented on
the decoded identity (so its remote-parent trace id is the encoded
trace id); and a span is returned for every token that is empty or
splits into at least 3 fields. -/
theorem traceSpan_remote_parenting (fresh I : SpanContext) (op am tid fro vb : String)
    (h1 : I.spanID.length = 8) (h2 : ∀ b ∈ I.spanID, b < 256)
    (h3 : I.traceID.length = 16) (h4 : ∀ b ∈ I.traceID, b < 256)
    (h5 : I.traceOptions < 4294967296) :
    (∃ sp, TraceSpanFromCorrelationId fresh (SerializeSpanContext I) op am tid fro vb =
        some sp ∧ sp.remoteParent = some I ∧
        sp.remoteParent.map SpanContext.traceID = some I.traceID) ∧
    (∀ t : List Char, t = [] ∨ 3 ≤ (goSplit t ';').length →
      ∃ sp, TraceSpanFromCorrelationId fresh t op am tid fro vb = some sp) := by
  constructor
  · have hne : SerializeSpanContext I ≠ [] := by
      unfold SerializeSpanContext
      intro he
      rcases List.append_eq_nil.mp he with ⟨-, h⟩
      exact absurd h (by simp)
    simp only [TraceSpanFromCorrelationId, if_pos hne,
      deserialize_serialize I h1 h2 h3 h4 h5, Option.map_some]
    exact ⟨_, rfl, rfl, rfl⟩
  · intro t ht
    by_cases hte : t = []
    · subst hte
      exact ⟨_, rfl⟩
    · have hlen : 3 ≤ (goSplit t ';').length := by
        rcases ht with h | h
        · exact absurd h hte
        · exact h
      have hd : ∃ sc, DeserializeSpanContext t = some sc := by
        unfold DeserializeSpanContext
        rw [if_pos hlen]
        exact ⟨_, rfl⟩
      obtain ⟨sc, hsc⟩ := hd
      simp only [TraceSpanFromCorrelationId, if_pos hte, hsc, Option.map_some]
      exact ⟨_, rfl⟩

/-- Witness for C4 (amended) at a concrete identity and fresh span. -/
theorem traceSpan_remote_parenting_witness :
    ∃ sp, TraceSpanFromCorrelationId ⟨List.replicate 8 1, List.replicate 16 2, 0⟩
        (SerializeSpanContext ⟨List.replicate 8 3, List.replicate 16 4, 1⟩)
        "op" "am" "tid" "src" "GET" = some sp ∧
      sp.remoteParent = some ⟨List.replicate 8 3, List.replicate 16 4, 1⟩ ∧
      sp.remoteParent.map SpanContext.traceID =
        some (SpanContext.mk (List.replicate 8 3) (List.replicate 16 4) 1).traceID :=
  (traceSpan_remote_parenting ⟨List.replicate 8 1, List.replicate 16 2, 0⟩
    ⟨List.replicate 8 3, List.replicate 16 4, 1⟩ "op" "am" "tid" "src" "GET"
    (by decide) (by decide) (by decide) (by decide) (by decide)).1

/-- C5: the empty token is absence, not failure — the pointer decode
returns nil without parsing, and the span starter produces a root span
with no remote parent. -/
theorem absence_starts_root (fresh : SpanContext) (op am tid fro vb : String) :
    DeserializeSpanContextPointer [] = some none ∧
    ∃ sp, TraceSpanFromCorrelationId fresh [] op am tid fro vb = some sp ∧
      sp.remoteParent = none :=
  ⟨rfl, ⟨_, rfl, rfl⟩⟩

/-- C6: each event in input order contributes exactly one `Annotate`
call tagged `message` immediately followed by one `AddAttributes`
call, strictly interleaved and never batched; no event is skipped, and
an event with an empty recipient list still carries a `to` attribute
whose value is the empty string. -/
theorem addEventAnnotations_interleaved (es : List Event) (b : Bool) :
    ∃ calls, AddEventAnnotations (some es) b = some calls ∧
      calls.length = 2 * es.length ∧
      (∀ i : Nat,
        calls[2 * i]? = (es[i]?).map (fun e => SpanCall.annotate (eventAttrs e) "message") ∧
        calls[2 * i + 1]? = (es[i]?).map (fun e => SpanCall.addAttributes (eventAttrs e ++
          if b then [⟨"data", e.Data.format⟩] else []))) ∧
      (∀ e, e ∈ es → e.To = [] → Attribute.mk "to" "" ∈ eventAttrs e) := by
  refine ⟨_, rfl, flatMap_annotate_length es b, flatMap_annotate_get es b, ?_⟩
  intro e he hTo
  have hj : String.intercalate "," e.To = "" := by rw [hTo]; rfl
  simp [eventAttrs, hj]

/-- C7: with `includeEventBody = false` no call ever carries a `data`
attribute; with `true` every event's `AddAttributes` call ends with a
`data` attribute rendered by the generic conversion (nil renders to
`<nil>`), while the preceding `Annotate` call never carries it. -/
theorem addEventAnnotations_body_toggle (es : List Event) :
    (∀ calls, AddEventAnnotations (some es) false = some calls →
      ∀ c, c ∈ calls → ∀ a, a ∈ c.attrList → a.key ≠ "data") ∧
    (∀ calls, AddEventAnnotations (some es) true = some calls →
      ∀ i : Nat,
        calls[2 * i]? = (es[i]?).map (fun e => SpanCall.annotate (eventAttrs e) "message") ∧
        (∀ e, e ∈ es → ∀ a, a ∈ eventAttrs e → a.key ≠ "data") ∧
        calls[2 * i + 1]? = (es[i]?).map (fun e =>
          SpanCall.addAttributes (eventAttrs e ++ [⟨"data", e.Data.format⟩]))) ∧
    GoValue.format GoValue.vnil = "<nil>" := by
  refine ⟨?_, ?_, rfl⟩
  · intro calls hc c hcmem a hamem
    obtain rfl := addEventAnnotations_some es false calls hc
    rcases mem_flatMap_annotate es false c hcmem with ⟨e, he, hcase | hcase⟩
    · subst hcase
      simp only [SpanCall.attrList] at hamem
      exact eventAttrs_key_ne_data e a hamem
    · subst hcase
      simp only [SpanCall.attrList, if_neg (Bool.false_ne_true), List.append_nil] at hamem
      exact eventAttrs_key_ne_data e a hamem
  · intro calls hc i
    obtain rfl := addEventAnnotations_some es true calls hc
    have h := flatMap_annotate_get es true i
    refine ⟨h.1, fun e _ => eventAttrs_key_ne_data e, ?_⟩
    simpa using h.2

/-- C8: a syntactically valid decimal third field whose value exceeds
`2^32 - 1` yields the saturated flags value `2^32 - 1`, while the id
fields decode exactly as with a well-formed flags field. -/
theorem deserialize_flags_overflow_saturates (p0 p1 p2 : List Char)
    (h0 : ';' ∉ p0) (h1 : ';' ∉ p1) (h2 : ';' ∉ p2)
    (hne : p2 ≠ []) (hall : p2.all Char.isDigit = true)
    (hover : 4294967295 < digitsVal p2) :
    ∃ sc sc0, DeserializeSpanContext (p0 ++ (';' :: (p1 ++ (';' :: p2)))) = some sc ∧
      DeserializeSpanContext (p0 ++ (';' :: (p1 ++ (';' :: ['0'])))) = some sc0 ∧
      sc.traceOptions = 4294967295 ∧ sc.spanID = sc0.spanID ∧ sc.traceID = sc0.traceID := by
  have hs1 : goSplit (p0 ++ (';' :: (p1 ++ (';' :: p2)))) ';' = p0 :: p1 :: p2 :: [] := by
    rw [goSplit_append_sep _ _ _ h0, goSplit_append_sep _ _ _ h1, goSplit_no_sep _ _ h2]
  have hs2 : goSplit (p0 ++ (';' :: (p1 ++ (';' :: ['0'])))) ';' = p0 :: p1 :: ['0'] :: [] := by
    rw [goSplit_append_sep _ _ _ h0, goSplit_append_sep _ _ _ h1,
      goSplit_no_sep _ _ (by decide)]
  refine ⟨_, _, deserialize_parts _ _ _ _ _ hs1, deserialize_parts _ _ _ _ _ hs2, ?_, rfl, rfl⟩
  exact parseUint32_saturates p2 hne hall hover

/-- Witness for C8 with third field `4294967296`. -/
theorem deserialize_flags_overflow_saturates_witness :
    ∃ sc sc0, DeserializeSpanContext
        (['a', 'b'] ++ (';' :: (['c'] ++ (';' :: "4294967296".data)))) = some sc ∧
      DeserializeSpanContext (['a', 'b'] ++ (';' :: (['c'] ++ (';' :: ['0'])))) = some sc0 ∧
      sc.traceOptions = 4294967295 ∧ sc.spanID = sc0.spanID ∧ sc.traceID = sc0.traceID :=
  deserialize_flags_overflow_saturates ['a', 'b'] ['c'] ("4294967296".data)
    (by decide) (by decide) (by decide) (by decide) (by decide) (by decide)

/-- C9: an over-long valid hex id field is truncated to its first 8
(span id) or 16 (trace id) decoded bytes, the remainder silently
discarded, so the decode is not injective outside the full-width
shape. -/
theorem deserialize_truncates_long_ids :
    (∀ p0 p1 p2 : List Char, ';' ∉ p0 → hexDecodeOk p0 = true → 16 < p0.length →
      ';' ∉ p1 →
      ∃ sc, DeserializeSpanContext (p0 ++ (';' :: (p1 ++ (';' :: p2)))) = some sc ∧
        sc.spanID = (hexDecodeBytes p0).take 8) ∧
    (∀ p0 p1 p2 : List Char, ';' ∉ p0 → ';' ∉ p1 → hexDecodeOk p1 = true →
      32 < p1.length →
      ∃ sc, DeserializeSpanContext (p0 ++ (';' :: (p1 ++ (';' :: p2)))) = some sc ∧
        sc.traceID = (hexDecodeBytes p1).take 16) ∧
    (∃ t1 t2 : List Char, t1 ≠ t2 ∧ DeserializeSpanContext t1 = DeserializeSpanContext t2 ∧
      (DeserializeSpanContext t1).isSome = true) := by
  refine ⟨?_, ?_, ?_⟩
  · intro p0 p1 p2 h0 hok hlen h1
    obtain ⟨c, rest, hcr⟩ := List.exists_cons_of_ne_nil (goSplit_ne_nil p2 ';')
    have hsplit : goSplit (p0 ++ (';' :: (p1 ++ (';' :: p2)))) ';' = p0 :: p1 :: c :: rest := by
      rw [goSplit_append_sep _ _ _ h0, goSplit_append_sep _ _ _ h1, hcr]
    refine ⟨_, deserialize_parts _ _ _ _ _ hsplit, ?_⟩
    have hlb : 8 ≤ (hexDecodeBytes p0).length := by
      have := hexDecodeBytes_length p0 hok
      omega
    exact copyInto_trunc 8 _ hlb
  · intro p0 p1 p2 h0 h1 hok hlen
    obtain ⟨c, rest, hcr⟩ := List.exists_cons_of_ne_nil (goSplit_ne_nil p2 ';')
    have hsplit : goSplit (p0 ++ (';' :: (p1 ++ (';' :: p2)))) ';' = p0 :: p1 :: c :: rest := by
      rw [goSplit_append_sep _ _ _ h0, goSplit_append_sep _ _ _ h1, hcr]
    refine ⟨_, deserialize_parts _ _ _ _ _ hsplit, ?_⟩
    have hlb : 16 ≤ (hexDecodeBytes p1).length := by
      have := hexDecodeBytes_length p1 hok
      omega
    exact copyInto_trunc 16 _ hlb
  · exact ⟨"00112233445566778899;00;0".data, "0011223344556677;00;0".data,
      by decide, by decide, by decide⟩

/-- C10: the events pointer is dereferenced unconditionally — with a
nil pointer `AddEventAnnotations` panics, and so do
`TraceSpanFromContext` and `TraceSpanFromRoutingContext` whenever
`includeEvent` is set. -/
theorem addEventAnnotations_nil_faults (fresh : SpanContext) (op : String)
    (b : Bool) (c : Option RoutingContext) :
    AddEventAnnotations none b = none ∧
    TraceSpanFromContext fresh none op true b = none ∧
    TraceSpanFromRoutingContext fresh c none op true b = none := by
  refine ⟨rfl, rfl, ?_⟩
  cases c with
  | none => rfl
  | some rc =>
    by_cases hh : rc.correlationHeader = []
    · simp [TraceSpanFromRoutingContext, hh, AddEventAnnotations]
    · cases hD : DeserializeSpanContext rc.correlationHeader with
      | none => simp [TraceSpanFromRoutingContext, hh, hD]
      | some sc => simp [TraceSpanFromRoutingContext, hh, hD, AddEventAnnotations]

end Tracing
